import Mathlib

/-!
Verification of the Typefont symbol-level matching pipeline.

The JavaScript source is shallowly embedded: JS objects with string keys
become insertion-ordered association lists (`JsObj`), numbers become `ℚ`
(or `ℕ` for counters and pixel channels), promises become an explicit
`Outcome` type (`resolved` / `rejected` / `pending`, where `pending` models
a promise that never settles), and external collaborators (the OCR engine,
canvas cropping, Jimp decoding) become oracle function parameters.
Per-font and per-symbol fan-out runs on the single-threaded JS event loop
with atomic callbacks, so a run is modelled as a fold over the fonts in
completion order; theorems quantify over that order via the input list.
-/

namespace Typefont

/-- A JavaScript object with string keys: an insertion-ordered association
list.  Objects built by the program start from a literal and are only
extended by property assignment, so keys are unique by construction. -/
abbrev JsObj (α : Type) := List (String × α)

/-- Property read `o[k]`: the value at the first entry whose key is `k`. -/
def jsGet {α : Type} : JsObj α → String → Option α
  | [], _ => none
  | p :: rest, k => if p.1 == k then some p.2 else jsGet rest k

/-- Property assignment `o[k] = v`: overwrite in place when the key is
present, append otherwise (JS keeps the original insertion position of an
overwritten key). -/
def jsSet {α : Type} : JsObj α → String → α → JsObj α
  | [], k, v => [(k, v)]
  | p :: rest, k, v => if p.1 == k then (k, v) :: rest else p :: jsSet rest k v

/-- Property deletion `delete o[k]`. -/
def jsDelete {α : Type} (o : JsObj α) (k : String) : JsObj α :=
  o.filter (fun p => p.1 != k)

/-- `Object.keys(o)` / the keys visited by a `for...in` loop. -/
def jsKeys {α : Type} (o : JsObj α) : List String :=
  o.map (fun p => p.1)

/-- JS truthiness of the property read `o[k]` for string-valued objects:
a missing property is `undefined` (falsy) and the empty string is falsy. -/
def jsTruthy (o : JsObj String) (k : String) : Bool :=
  match jsGet o k with
  | some v => v != ""
  | none => false

/-- `_symbolsToDomain` (index.js): for each key of `first`, delete it when
`second[key]` is falsy; then for each key of (the already reduced) `first`,
delete from `second` every key whose `first[key]` is falsy.  The `for...in`
loops only ever delete the key currently visited, so folding over the
original key list is faithful. -/
def symbolsToDomain (first second : JsObj String) : JsObj String × JsObj String :=
  let first' := (jsKeys first).foldl
    (fun f k => if jsTruthy second k then f else jsDelete f k) first
  let second' := (jsKeys second).foldl
    (fun s k => if jsTruthy first' k then s else jsDelete s k) second
  (first', second')

lemma foldl_delete_eq_filter (pred : String → Bool) :
    ∀ (ks : List String) (o : JsObj String),
      ks.foldl (fun f k => if pred k then f else jsDelete f k) o
        = o.filter (fun p => pred p.1 || !(ks.contains p.1)) := by
  intro ks
  induction ks with
  | nil =>
      intro o
      simp
  | cons k ks ih =>
      intro o
      simp only [List.foldl_cons]
      rw [ih]
      by_cases hk : pred k = true
      · rw [if_pos hk]
        apply List.filter_congr
        intro p _
        by_cases hpk : p.1 = k
        · simp [hpk, hk]
        · simp [hpk]
      · have hk' : pred k = false := by simpa using hk
        rw [if_neg (by simp [hk'])]
        simp only [jsDelete, List.filter_filter]
        apply List.filter_congr
        intro p _
        by_cases hpk : p.1 = k
        · simp [hpk, hk']
        · simp [hpk, bne]

lemma symbolsToDomain_fst (first second : JsObj String) :
    (symbolsToDomain first second).1 = first.filter (fun p => jsTruthy second p.1) := by
  show (jsKeys first).foldl _ first = _
  rw [foldl_delete_eq_filter]
  apply List.filter_congr
  intro p hp
  have hmem : p.1 ∈ jsKeys first := List.mem_map_of_mem _ hp
  simp [hmem]

lemma symbolsToDomain_snd (first second : JsObj String) :
    (symbolsToDomain first second).2
      = second.filter (fun p => jsTruthy (symbolsToDomain first second).1 p.1) := by
  show (jsKeys second).foldl _ second = _
  rw [foldl_delete_eq_filter]
  apply List.filter_congr
  intro p hp
  have hmem : p.1 ∈ jsKeys second := List.mem_map_of_mem _ hp
  simp [hmem]
  rfl

/-- For an object whose stored values are all truthy (every glyph value in
the pipeline is a nonempty data-URL string), property truthiness of `o[k]`
is exactly key membership. -/
lemma jsTruthy_eq_mem (o : JsObj String) (hv : ∀ p ∈ o, p.2 ≠ "") (k : String) :
    jsTruthy o k = true ↔ k ∈ jsKeys o := by
  induction o with
  | nil => simp [jsTruthy, jsGet, jsKeys]
  | cons p rest ih =>
      have hv' : ∀ q ∈ rest, q.2 ≠ "" := fun q hq => hv q (List.mem_cons_of_mem _ hq)
      by_cases hpk : p.1 = k
      · have hb : (p.1 == k) = true := by simp [hpk]
        have hne : p.2 ≠ "" := hv p (List.mem_cons_self _ _)
        simp [jsTruthy, jsGet, hb, jsKeys, hpk, bne, hne]
      · have hb : (p.1 == k) = false := by simp [hpk]
        have hstep : jsTruthy (p :: rest) k = jsTruthy rest k := by
          simp [jsTruthy, jsGet, hb]
        rw [hstep, ih hv']
        simp [jsKeys]
        intro h
        exact absurd h.symm hpk

lemma mem_jsKeys_filter (o : JsObj String) (pred : String × String → Bool) (k : String) :
    k ∈ jsKeys (o.filter pred) ↔ ∃ p ∈ o, p.1 = k ∧ pred p = true := by
  simp only [jsKeys, List.mem_map, List.mem_filter]
  tauto

/-- C3: after `_symbolsToDomain` runs in place on two glyph sets whose
stored values are truthy (as every crop and every prefixed alpha entry is),
the key set of the first set, the key set of the second set, and the
intersection of the two original key sets all coincide. -/
theorem domainReducer_keys_intersection (first second : JsObj String)
    (hv1 : ∀ p ∈ first, p.2 ≠ "") (hv2 : ∀ p ∈ second, p.2 ≠ "") (k : String) :
    (k ∈ jsKeys (symbolsToDomain first second).1
      ↔ k ∈ jsKeys first ∧ k ∈ jsKeys second)
    ∧ (k ∈ jsKeys (symbolsToDomain first second).2
      ↔ k ∈ jsKeys first ∧ k ∈ jsKeys second) := by
  have hfst : ∀ k', k' ∈ jsKeys (symbolsToDomain first second).1
      ↔ k' ∈ jsKeys first ∧ k' ∈ jsKeys second := by
    intro k'
    rw [symbolsToDomain_fst, mem_jsKeys_filter]
    constructor
    · rintro ⟨p, hp, hk, htr⟩
      subst hk
      exact ⟨List.mem_map_of_mem _ hp, (jsTruthy_eq_mem second hv2 p.1).mp htr⟩
    · rintro ⟨h1, h2⟩
      rcases List.mem_map.mp h1 with ⟨p, hp, hk⟩
      exact ⟨p, hp, hk, (jsTruthy_eq_mem second hv2 p.1).mpr (hk ▸ h2)⟩
  refine ⟨hfst k, ?_⟩
  have hv1' : ∀ p ∈ (symbolsToDomain first second).1, p.2 ≠ "" := by
    intro p hp
    rw [symbolsToDomain_fst] at hp
    exact hv1 p (List.mem_of_mem_filter hp)
  rw [symbolsToDomain_snd, mem_jsKeys_filter]
  constructor
  · rintro ⟨p, hp, hk, htr⟩
    subst hk
    have hmem := (jsTruthy_eq_mem _ hv1' p.1).mp htr
    exact ⟨((hfst p.1).mp hmem).1, List.mem_map_of_mem _ hp⟩
  · rintro ⟨h1, h2⟩
    rcases List.mem_map.mp h2 with ⟨p, hp, hk⟩
    refine ⟨p, hp, hk, (jsTruthy_eq_mem _ hv1' p.1).mpr ?_⟩
    exact (hfst p.1).mpr ⟨hk ▸ h1, hk ▸ h2⟩

theorem domainReducer_keys_intersection_witness :
    (("b" ∈ jsKeys (symbolsToDomain [("a", "x"), ("b", "y")] [("b", "z"), ("c", "w")]).1
      ↔ "b" ∈ jsKeys [("a", "x"), ("b", "y")] ∧ "b" ∈ jsKeys [("b", "z"), ("c", "w")])
    ∧ ("b" ∈ jsKeys (symbolsToDomain [("a", "x"), ("b", "y")] [("b", "z"), ("c", "w")]).2
      ↔ "b" ∈ jsKeys [("a", "x"), ("b", "y")] ∧ "b" ∈ jsKeys [("b", "z"), ("c", "w")])) :=
  domainReducer_keys_intersection [("a", "x"), ("b", "y")] [("b", "z"), ("c", "w")]
    (by decide) (by decide) "b"

/-- Settlement state of a JS promise: it either resolved with a value,
rejected, or never settles at all. -/
inductive Outcome (α : Type) where
  | resolved (val : α)
  | rejected
  | pending
deriving DecidableEq

/-- The per-symbol result object `{analytic, shape}` built by `_compare`. -/
structure SymbolScore where
  analytic : ℚ
  shape : ℚ
deriving DecidableEq

/-- The sequence of `Promise.all([AnalyticPerception(...), ShapePerception(...)])`
evaluations launched by the `for...in` loop of `_compare`, in completion
order.  `none` from an oracle models a rejected comparator promise; a single
rejection makes the whole collection fail. -/
def collectScores (analytic shape : String → Option String → Option ℚ)
    (second : JsObj String) : List (String × String) → Option (JsObj SymbolScore)
  | [] => some []
  | p :: rest => do
    let a ← analytic p.2 (jsGet second p.1)
    let s ← shape p.2 (jsGet second p.1)
    let r ← collectScores analytic shape second rest
    pure ((p.1, SymbolScore.mk a s) :: r)

/-- `_compare` (index.js): `todo` is the key count of `first`; `finalize`
resolves only once the completion counter `done` reaches `todo`.  If any
symbol comparison rejects, its `finalize` never runs and `reject` settles
the promise; if `first` is empty the loop body never runs, `done == todo`
is never tested, and the promise never settles. -/
def compareSets (analytic shape : String → Option String → Option ℚ)
    (first second : JsObj String) : Outcome (JsObj SymbolScore) :=
  match collectScores analytic shape second first with
  | none => .rejected
  | some r => if first.isEmpty then .pending else .resolved r

/-- C1 (code bug): on an empty reduced domain `_compare` never resolves —
the completion counter can never equal a `todo` of zero because `finalize`
is never invoked, so the returned promise stays pending forever instead of
resolving immediately with an empty aggregate as the spec requires. -/
theorem comparisonAggregator_empty_domain_hangs :
    compareSets (fun _ _ => some 100) (fun _ _ => some 100) [] [] = Outcome.pending
    ∧ Outcome.pending ≠ Outcome.resolved ([] : JsObj SymbolScore) :=
  ⟨rfl, by decide⟩

/-- An OCR bounding box as consumed by `_symbolsToBase64`. -/
structure Bbox where
  x0 : ℚ
  y0 : ℚ
  x1 : ℚ
  y1 : ℚ
deriving DecidableEq

/-- One detected symbol of the OCR result (`res.symbols` entry). -/
structure OcrSymbol where
  text : String
  confidence : ℚ
  bbox : Bbox
deriving DecidableEq

/-- One iteration of the `for (const symbol of symbols)` loop of
`_symbolsToBase64`: accept the symbol when its confidence reaches
`minSymbolConfidence` and store the crop of its bounding box under its
text label. -/
def extractStep (crop : ℚ → ℚ → ℚ → ℚ → String) (minSymbolConfidence : ℚ)
    (data : JsObj String) (s : OcrSymbol) : JsObj String :=
  if minSymbolConfidence ≤ s.confidence then
    jsSet data s.text (crop s.bbox.x0 s.bbox.y0 s.bbox.x1 s.bbox.y1)
  else data

/-- `_symbolsToBase64` (index.js): fold the OCR symbols in input order into
an initially empty object.  `crop` is the canvas-cropping capability
`img.crop`, applied to the bounding box corners exactly as the source
does. -/
def symbolsToBase64 (crop : ℚ → ℚ → ℚ → ℚ → String) (symbols : List OcrSymbol)
    (minSymbolConfidence : ℚ) : JsObj String :=
  symbols.foldl (extractStep crop minSymbolConfidence) []

lemma jsGet_jsSet {α : Type} (o : JsObj α) (k t : String) (v : α) :
    jsGet (jsSet o k v) t = if t = k then some v else jsGet o t := by
  induction o with
  | nil =>
      by_cases h : t = k
      · simp [jsSet, jsGet, h]
      · have hkt : ¬k = t := fun e => h e.symm
        simp [jsSet, jsGet, h, hkt]
  | cons p rest ih =>
      by_cases hpk : p.1 = k
      · by_cases htk : t = k
        · simp [jsSet, jsGet, hpk, htk]
        · have hkt : ¬k = t := fun e => htk e.symm
          have hpt : ¬p.1 = t := fun e => htk (by rw [← e, hpk])
          simp [jsSet, jsGet, hpk, htk, hkt, hpt]
      · have hb : (p.1 == k) = false := by simp [hpk]
        by_cases hpt : p.1 = t
        · have htk : ¬t = k := fun e => hpk (by rw [hpt, e])
          simp [jsSet, jsGet, hb, hpt, htk]
        · have hb' : (p.1 == t) = false := by simp [hpt]
          simp [jsSet, jsGet, hb, hb', ih]

lemma jsGet_extract_foldl (crop : ℚ → ℚ → ℚ → ℚ → String) (thr : ℚ) (t : String) :
    ∀ (symbols : List OcrSymbol) (data : JsObj String),
      jsGet (symbols.foldl (extractStep crop thr) data) t
        = match symbols.reverse.find?
            (fun s => s.text == t && decide (thr ≤ s.confidence)) with
          | some s => some (crop s.bbox.x0 s.bbox.y0 s.bbox.x1 s.bbox.y1)
          | none => jsGet data t := by
  intro symbols
  induction symbols with
  | nil => intro data; rfl
  | cons s rest ih =>
      intro data
      simp only [List.foldl_cons, List.reverse_cons]
      rw [ih, List.find?_append]
      cases hfind : rest.reverse.find? (fun s => s.text == t && decide (thr ≤ s.confidence)) with
      | some x => simp [Option.or]
      | none =>
          by_cases hc : thr ≤ s.confidence
          · by_cases hts : s.text = t
            · have hq : (s.text == t && decide (thr ≤ s.confidence)) = true := by
                simp [hts, hc]
              simp [Option.or, List.find?, hq, extractStep, hc, jsGet_jsSet, hts]
            · have hq : (s.text == t) = false := by simp [hts]
              have hne : ¬t = s.text := fun e => hts e.symm
              simp [Option.or, List.find?, hq, extractStep, hc, jsGet_jsSet, hne]
          · have hq : (s.text == t && decide (thr ≤ s.confidence)) = false := by
              simp [hc]
            simp [Option.or, List.find?, hq, extractStep, hc]

/-- C6: the glyph set built by `_symbolsToBase64` holds exactly the labels
of detected symbols whose confidence is at least the threshold; when a
label repeats above threshold, the stored crop is that of the last
occurrence in input order (the first occurrence in the reversed sequence);
an empty OCR result yields an empty set. -/
theorem glyphExtractor_spec (crop : ℚ → ℚ → ℚ → ℚ → String)
    (symbols : List OcrSymbol) (minSymbolConfidence : ℚ) (t : String) :
    jsGet (symbolsToBase64 crop symbols minSymbolConfidence) t
      = (symbols.reverse.find?
          (fun s => s.text == t && decide (minSymbolConfidence ≤ s.confidence))).map
          (fun s => crop s.bbox.x0 s.bbox.y0 s.bbox.x1 s.bbox.y1)
    ∧ symbolsToBase64 crop [] minSymbolConfidence = [] := by
  constructor
  · rw [symbolsToBase64, jsGet_extract_foldl]
    cases symbols.reverse.find?
        (fun s => s.text == t && decide (minSymbolConfidence ≤ s.confidence)) <;> rfl
  · rfl

/-- The `i += 4` scan over an RGBA pixel array (shape.js, index.js): the
red channel of each pixel. -/
def reds : List ℕ → List ℕ
  | [] => []
  | v :: rest => v :: reds (rest.drop 3)
termination_by l => l.length
decreasing_by simp [List.length_drop]; omega

/-- The `w`/`j` counters of `_getBinarizedMatrix`'s loop cut the scanned
sequence into consecutive rows of `width` entries.  (With `width = 0` and
a nonempty scan the source would fault on a missing row; that unreachable
case is mapped to the empty matrix.) -/
def chunkRows (width : ℕ) : List ℕ → List (List ℕ)
  | [] => []
  | v :: rest =>
      if _hw : width = 0 then []
      else (v :: rest).take width :: chunkRows width ((v :: rest).drop width)
termination_by l => l.length
decreasing_by simp [List.length_drop]; omega

/-- `_getBinarizedMatrix` (shape.js): scan the RGBA data in row-major
order, mapping red channel 255 to 1 and anything else to 0, into rows of
the canvas width. -/
def getBinarizedMatrix (width : ℕ) (data : List ℕ) : List (List ℕ) :=
  chunkRows width ((reds data).map (fun v => if v = 255 then 1 else 0))

/-- `matrix[i][j]` with JS semantics: `undefined` (here `none`) when out of
bounds. -/
def entry (m : List (List ℕ)) (i j : ℕ) : Option ℕ :=
  m[i]?.bind (fun row => row[j]?)

/-- The double loop of `_compare` (shape.js): `r = matrix.length`,
`c = matrix[0].length`, and `dist` counts the coordinates at which the two
matrices disagree under JS `!=` (two `undefined` reads compare equal). -/
def shapeDist (matrix matrix1 : List (List ℕ)) : ℕ :=
  ((List.range matrix.length).map (fun i =>
    ((List.range (matrix.head?.getD []).length).filter
      (fun j => entry matrix i j != entry matrix1 i j)).length)).sum

/-- The similarity that `_compare` (shape.js) resolves with:
`100 - (dist / (r * c) * 100)`. -/
def shapeSimilarity (matrix matrix1 : List (List ℕ)) : ℚ :=
  100 - ((shapeDist matrix matrix1 : ℚ)
    / (matrix.length * (matrix.head?.getD []).length) * 100)

/-- The full ShapePerception comparison on two equal-width RGBA buffers. -/
def shapeCompare (width : ℕ) (data data1 : List ℕ) : ℚ :=
  shapeSimilarity (getBinarizedMatrix width data) (getBinarizedMatrix width data1)

/-- Hamming distance as the spec words it: the count of coordinate
positions at which two equal-sized matrices disagree, summed row by row. -/
def hammingSpec (matrix matrix1 : List (List ℕ)) : ℕ :=
  (List.zipWith (fun row row1 =>
    (List.zipWith (fun a b => if a = b then (0 : ℕ) else 1) row row1).sum)
    matrix matrix1).sum

lemma row_dist_eq (row : List ℕ) : ∀ (row1 : List ℕ) (c : ℕ),
    row.length = c → row1.length = c →
    ((List.range c).filter (fun j => row[j]? != row1[j]?)).length
      = (List.zipWith (fun a b => if a = b then (0 : ℕ) else 1) row row1).sum := by
  induction row with
  | nil =>
      intro row1 c h h1
      simp at h
      subst h
      simp
  | cons a row' ih =>
      intro row1 c h h1
      cases row1 with
      | nil => rw [← h1] at h; simp at h
      | cons b row1' =>
          subst h
          simp only [List.length_cons] at h1
          simp only [List.length_cons]
          rw [List.range_succ_eq_map, List.filter_cons, List.filter_map]
          have htail : ((List.range row'.length).filter
              ((fun j => (a :: row')[j]? != (b :: row1')[j]?) ∘ Nat.succ))
              = (List.range row'.length).filter (fun j => row'[j]? != row1'[j]?) := by
            apply List.filter_congr
            intro j _
            simp
          by_cases hab : a = b
          · have hz : ((a :: row')[0]? != (b :: row1')[0]?) = false := by
              simp [hab]
            rw [hz]
            simp only [Bool.false_eq_true, if_false, List.length_map, htail]
            rw [ih row1' row'.length rfl (by omega)]
            simp [hab]
          · have hz : ((a :: row')[0]? != (b :: row1')[0]?) = true := by
              simp [hab]
            rw [hz]
            simp only [if_true, List.length_cons, List.length_map, htail]
            rw [ih row1' row'.length rfl (by omega)]
            simp [hab, Nat.add_comm]

lemma shapeDist_eq_hammingSpec (m : List (List ℕ)) : ∀ (m1 : List (List ℕ)) (c : ℕ),
    m.length = m1.length →
    (∀ row ∈ m, row.length = c) → (∀ row ∈ m1, row.length = c) →
    ((List.range m.length).map (fun i =>
      ((List.range c).filter (fun j => entry m i j != entry m1 i j)).length)).sum
      = hammingSpec m m1 := by
  induction m with
  | nil =>
      intro m1 c hlen hm hm1
      simp [hammingSpec]
  | cons row m' ih =>
      intro m1 c hlen hm hm1
      cases m1 with
      | nil => simp at hlen
      | cons row1 m1' =>
          simp only [List.length_cons] at hlen
          simp only [List.length_cons, List.range_succ_eq_map, List.map_cons, List.map_map,
            List.sum_cons]
          have hhead : ((List.range c).filter
              (fun j => entry (row :: m') 0 j != entry (row1 :: m1') 0 j)).length
              = (List.zipWith (fun a b => if a = b then (0 : ℕ) else 1) row row1).sum := by
            have he : ∀ j, entry (row :: m') 0 j = row[j]? := fun j => by simp [entry]
            have he1 : ∀ j, entry (row1 :: m1') 0 j = row1[j]? := fun j => by simp [entry]
            simp only [he, he1]
            exact row_dist_eq row row1 c (hm row (List.mem_cons_self _ _))
              (hm1 row1 (List.mem_cons_self _ _))
          have htail : ((List.range m'.length).map
              ((fun i => ((List.range c).filter
                (fun j => entry (row :: m') i j != entry (row1 :: m1') i j)).length)
                ∘ Nat.succ)).sum
              = hammingSpec m' m1' := by
            have hcomp : ∀ i, ((fun i => ((List.range c).filter
                (fun j => entry (row :: m') i j != entry (row1 :: m1') i j)).length)
                ∘ Nat.succ) i
                = (fun i => ((List.range c).filter
                    (fun j => entry m' i j != entry m1' i j)).length) i := by
              intro i
              simp [entry]
            rw [List.map_congr_left (fun i _ => hcomp i)]
            exact ih m1' c (by omega)
              (fun r hr => hm r (List.mem_cons_of_mem _ hr))
              (fun r hr => hm1 r (List.mem_cons_of_mem _ hr))
          rw [hhead, htail]
          simp [hammingSpec]

lemma shapeDist_self (m : List (List ℕ)) : shapeDist m m = 0 := by
  rw [shapeDist]
  have h : ∀ i ∈ List.range m.length,
      ((List.range (m.head?.getD []).length).filter
        (fun j => entry m i j != entry m i j)).length = 0 := by
    intro i _
    simp
  rw [List.map_congr_left h]
  simp

lemma shapeDist_le (m m1 : List (List ℕ)) :
    shapeDist m m1 ≤ m.length * (m.head?.getD []).length := by
  rw [shapeDist]
  have h : ∀ x ∈ (List.range m.length).map (fun i =>
      ((List.range (m.head?.getD []).length).filter
        (fun j => entry m i j != entry m1 i j)).length),
      x ≤ (m.head?.getD []).length := by
    intro x hx
    rcases List.mem_map.mp hx with ⟨i, _, hix⟩
    rw [← hix]
    calc ((List.range (m.head?.getD []).length).filter
          (fun j => entry m i j != entry m1 i j)).length
        ≤ (List.range (m.head?.getD []).length).length := List.length_filter_le _ _
      _ = (m.head?.getD []).length := List.length_range _
  calc ((List.range m.length).map _).sum
      ≤ ((List.range m.length).map (fun i =>
          ((List.range (m.head?.getD []).length).filter
            (fun j => entry m i j != entry m1 i j)).length)).length
          • (m.head?.getD []).length := List.sum_le_card_nsmul _ _ h
    _ = m.length * (m.head?.getD []).length := by
        simp [List.length_map, List.length_range, smul_eq_mul]

/-- C4: for equal-sized binarized matrices the ShapeComparator result is
`100 - (hammingDistance / (rows * cols)) * 100` where the Hamming distance
counts disagreeing positions; identical matrices score 100; two 2-by-2
matrices differing in exactly 1 of 4 cells score 75; matrices disagreeing
at every position (fully inverted bitmaps) score 0. -/
theorem shapeComparator_spec :
    (∀ (m m1 : List (List ℕ)) (c : ℕ), m.length = m1.length →
        (∀ row ∈ m, row.length = c) → (∀ row ∈ m1, row.length = c) → m ≠ [] →
        shapeSimilarity m m1
          = 100 - ((hammingSpec m m1 : ℚ) / (m.length * c) * 100))
    ∧ (∀ m : List (List ℕ), shapeSimilarity m m = 100)
    ∧ shapeSimilarity [[1, 0], [0, 1]] [[1, 1], [0, 1]] = 75
    ∧ (∀ (m m1 : List (List ℕ)) (c : ℕ), m.length = m1.length →
        (∀ row ∈ m, row.length = c) → (∀ row ∈ m1, row.length = c) →
        m ≠ [] → 0 < c →
        (∀ i j, i < m.length → j < c → entry m i j ≠ entry m1 i j) →
        shapeSimilarity m m1 = 0) := by
  have hhead : ∀ (m : List (List ℕ)) (c : ℕ), m ≠ [] → (∀ row ∈ m, row.length = c) →
      (m.head?.getD []).length = c := by
    intro m c hne hm
    cases m with
    | nil => exact absurd rfl hne
    | cons row m' => exact hm row (List.mem_cons_self _ _)
  refine ⟨?_, ?_, ?_, ?_⟩
  · intro m m1 c hlen hm hm1 hne
    have hc := hhead m c hne hm
    have hsd : shapeDist m m1 = hammingSpec m m1 := by
      rw [shapeDist, hc]
      exact shapeDist_eq_hammingSpec m m1 c hlen hm hm1
    rw [shapeSimilarity, hsd, hc]
  · intro m
    rw [shapeSimilarity, shapeDist_self]
    norm_num
  · have hd : shapeDist [[1, 0], [0, 1]] [[1, 1], [0, 1]] = 1 := by decide
    rw [shapeSimilarity, hd]
    norm_num
  · intro m m1 c hlen hm hm1 hne hc hdis
    have hc' := hhead m c hne hm
    have hr : 0 < m.length := List.length_pos.mpr hne
    have hsd : shapeDist m m1 = m.length * c := by
      rw [shapeDist, hc']
      have h : ∀ i ∈ List.range m.length,
          ((List.range c).filter (fun j => entry m i j != entry m1 i j)).length = c := by
        intro i hi
        have hall : ∀ j ∈ List.range c,
            (entry m i j != entry m1 i j) = true := by
          intro j hj
          exact bne_iff_ne.mpr
            (hdis i j (List.mem_range.mp hi) (List.mem_range.mp hj))
        rw [List.filter_eq_self.mpr hall, List.length_range]
      rw [List.map_congr_left h]
      simp [List.map_const', List.sum_replicate, smul_eq_mul]
    rw [shapeSimilarity, hsd, hc']
    have hne0 : ((m.length : ℚ) * c) ≠ 0 := by
      have : (0 : ℚ) < (m.length : ℚ) * c := by
        apply mul_pos <;> exact_mod_cast by omega
      exact ne_of_gt this
    rw [Nat.cast_mul]
    rw [div_self hne0]
    norm_num

theorem shapeComparator_spec_witness :
    (shapeSimilarity [[1, 0], [0, 1]] [[1, 1], [0, 1]]
      = 100 - ((hammingSpec [[1, 0], [0, 1]] [[1, 1], [0, 1]] : ℚ)
          / (([[1, 0], [0, 1]] : List (List ℕ)).length * (2 : ℕ)) * 100))
    ∧ shapeSimilarity [[1, 0], [0, 1]] [[0, 1], [1, 0]] = 0 := by
  constructor
  · exact shapeComparator_spec.1 [[1, 0], [0, 1]] [[1, 1], [0, 1]] 2 rfl
      (by decide) (by decide) (by decide)
  · exact shapeComparator_spec.2.2.2 [[1, 0], [0, 1]] [[0, 1], [1, 0]] 2 rfl
      (by decide) (by decide) (by decide) (by decide)
      (fun i j hi hj => by
        have hi' : i < 2 := by simpa using hi
        interval_cases i <;> interval_cases j <;> decide)

/-- `_compare` (analytic.js): the resolved value is
`100 - Jimp.diff(img, img1, threshold).percent * 100`, where `percent` is
the thresholded pixel-difference fraction computed by the external Jimp
library. -/
def analyticSimilarity (percent : ℚ) : ℚ :=
  100 - percent * 100

/-- `_average` (index.js): `calc` accumulates `(analytic + shape) / 2` over
the symbols of the comparison result and `ll` counts them; the result is
`calc / ll`. -/
def average (res : JsObj SymbolScore) : ℚ :=
  (res.foldl (fun c p => c + (p.2.analytic + p.2.shape) / 2) 0) / res.length

lemma foldl_add_eq_sum (f : String × SymbolScore → ℚ) :
    ∀ (l : JsObj SymbolScore) (a : ℚ),
      l.foldl (fun c p => c + f p) a = a + (l.map f).sum := by
  intro l
  induction l with
  | nil => intro a; simp
  | cons p rest ih =>
      intro a
      simp only [List.foldl_cons, List.map_cons, List.sum_cons]
      rw [ih]
      ring

/-- C8: every similarity the system produces lies in [0, 100]: the
ShapeComparator result for any two matrices, the AnalyticComparator result
whenever the underlying pixel-diff fraction is in [0, 1], and the
`_average` of a nonempty per-symbol aggregate whose scores are themselves
in [0, 100]. -/
theorem similarity_bounds :
    (∀ m m1 : List (List ℕ), 0 ≤ shapeSimilarity m m1 ∧ shapeSimilarity m m1 ≤ 100)
    ∧ (∀ percent : ℚ, 0 ≤ percent → percent ≤ 1 →
        0 ≤ analyticSimilarity percent ∧ analyticSimilarity percent ≤ 100)
    ∧ (∀ res : JsObj SymbolScore, res ≠ [] →
        (∀ p ∈ res, 0 ≤ p.2.analytic ∧ p.2.analytic ≤ 100
          ∧ 0 ≤ p.2.shape ∧ p.2.shape ≤ 100) →
        0 ≤ average res ∧ average res ≤ 100) := by
  refine ⟨?_, ?_, ?_⟩
  · intro m m1
    have hle : (shapeDist m m1 : ℚ) ≤ (m.length : ℚ) * ((m.head?.getD []).length : ℚ) := by
      exact_mod_cast shapeDist_le m m1
    have h0 : (0 : ℚ) ≤ (shapeDist m m1 : ℚ) := Nat.cast_nonneg _
    have hden : (0 : ℚ) ≤ (m.length : ℚ) * ((m.head?.getD []).length : ℚ) := by positivity
    have hq0 : 0 ≤ (shapeDist m m1 : ℚ)
        / ((m.length : ℚ) * ((m.head?.getD []).length : ℚ)) := div_nonneg h0 hden
    have hq1 : (shapeDist m m1 : ℚ)
        / ((m.length : ℚ) * ((m.head?.getD []).length : ℚ)) ≤ 1 := by
      rcases eq_or_lt_of_le hden with h | h
      · rw [← h, div_zero]
        norm_num
      · exact (div_le_one h).mpr hle
    rw [shapeSimilarity]
    constructor <;> nlinarith [hq0, hq1]
  · intro percent h0 h1
    rw [analyticSimilarity]
    constructor <;> nlinarith
  · intro res hne hbound
    have hcalc : res.foldl (fun c p => c + (p.2.analytic + p.2.shape) / 2) 0
        = (res.map (fun p => (p.2.analytic + p.2.shape) / 2)).sum := by
      rw [foldl_add_eq_sum]
      ring
    have hlen : (0 : ℚ) < (res.length : ℚ) := by
      exact_mod_cast List.length_pos.mpr hne
    have hsum0 : 0 ≤ (res.map (fun p => (p.2.analytic + p.2.shape) / 2)).sum := by
      apply List.sum_nonneg
      intro x hx
      rcases List.mem_map.mp hx with ⟨p, hp, hxe⟩
      rcases hbound p hp with ⟨ha0, _, hs0, _⟩
      rw [← hxe]
      linarith
    have hsumle : (res.map (fun p => (p.2.analytic + p.2.shape) / 2)).sum
        ≤ (res.map (fun p => (p.2.analytic + p.2.shape) / 2)).length • (100 : ℚ) := by
      apply List.sum_le_card_nsmul
      intro x hx
      rcases List.mem_map.mp hx with ⟨p, hp, hxe⟩
      rcases hbound p hp with ⟨_, ha1, _, hs1⟩
      rw [← hxe]
      linarith
    rw [List.length_map, nsmul_eq_mul] at hsumle
    rw [average, hcalc]
    constructor
    · exact div_nonneg hsum0 (le_of_lt hlen)
    · rw [div_le_iff₀ hlen]
      linarith

theorem similarity_bounds_witness :
    (0 ≤ shapeSimilarity [[1, 0]] [[0, 0]] ∧ shapeSimilarity [[1, 0]] [[0, 0]] ≤ 100)
    ∧ (0 ≤ analyticSimilarity (1 / 2) ∧ analyticSimilarity (1 / 2) ≤ 100)
    ∧ (0 ≤ average [("a", SymbolScore.mk 50 60)]
        ∧ average [("a", SymbolScore.mk 50 60)] ≤ 100) :=
  ⟨similarity_bounds.1 [[1, 0]] [[0, 0]],
   similarity_bounds.2.1 (1 / 2) (by norm_num) (by norm_num),
   similarity_bounds.2.2 [("a", SymbolScore.mk 50 60)] (by decide) (by decide)⟩

/-- One font of the corpus as seen by `_recognize`: its corpus name, the
optional `meta.name` override, and the result of `prepareFont` — `none`
when the fetch rejected, otherwise the already-prefixed `alpha` glyph
set. -/
structure FontInput where
  name : String
  metaName : Option String
  alpha : Option (JsObj String)
deriving DecidableEq

/-- The part of the pushed `meta` object the ranking observes: the
defaulted `name` and the assigned `similarity`. -/
structure FontScore where
  name : String
  similarity : ℚ
deriving DecidableEq

/-- One invocation of the `progress` callback: the font name and the
`fractionComplete` argument (`done / todo`). -/
structure ProgressCall where
  name : String
  fraction : ℚ
deriving DecidableEq

/-- The mutable state threaded through `_recognize`'s fan-out: the shared
recognized `symbols` object, the `result` array, the progress calls made so
far, the completion counter `done`, and whether `reject` has fired. -/
structure RecState where
  symbols : JsObj String
  result : List FontScore
  progressLog : List ProgressCall
  done : ℕ
  failed : Bool
deriving DecidableEq

/-- The state of `_recognize` before any font's callbacks have run. -/
def initState (symbols0 : JsObj String) : RecState :=
  { symbols := symbols0, result := [], progressLog := [], done := 0, failed := false }

/-- The processing of one font inside `_recognize`'s loop, in completion
order: a failed `prepareFont` rejects the pass; otherwise
`_symbolsToDomain(symbols, font.alpha)` mutates the SHARED recognized set
in place, `_compare` runs on the reduced pair, and on resolution
`finalize` pushes the score, fires `progress` with the PRE-increment
`done / todo`, and then increments `done`. -/
def recognizeFont (analytic shape : String → Option String → Option ℚ)
    (todo : ℕ) (st : RecState) (f : FontInput) : RecState :=
  match f.alpha with
  | none => { st with failed := true }
  | some alpha =>
    match compareSets analytic shape (symbolsToDomain st.symbols alpha).1
        (symbolsToDomain st.symbols alpha).2 with
    | .pending => { st with symbols := (symbolsToDomain st.symbols alpha).1 }
    | .rejected => { st with symbols := (symbolsToDomain st.symbols alpha).1, failed := true }
    | .resolved val =>
      { symbols := (symbolsToDomain st.symbols alpha).1
        result := st.result ++ [{ name := f.metaName.getD f.name, similarity := average val }]
        progressLog := st.progressLog ++ [{ name := f.name, fraction := (st.done : ℚ) / todo }]
        done := st.done + 1
        failed := st.failed }

/-- Descending insertion by `similarity`, modelling the effect of
`result.sort((a, b) => b.similarity - a.similarity)`. -/
def insertScore (x : FontScore) : List FontScore → List FontScore
  | [] => [x]
  | y :: ys => if y.similarity ≤ x.similarity then x :: y :: ys else y :: insertScore x ys

/-- Sort the collected scores by `similarity` descending. -/
def sortBySimilarityDesc (l : List FontScore) : List FontScore :=
  l.foldr insertScore []

/-- `_recognize` (index.js) after `_prepare` succeeded, as a function of
the fonts in completion order: fold every font's callbacks over the shared
state; the outer promise rejects if any font rejected, resolves with the
sorted result once `done == todo`, and otherwise never settles. -/
def recognizeModel (analytic shape : String → Option String → Option ℚ)
    (symbols0 : JsObj String) (fonts : List FontInput) :
    List ProgressCall × Outcome (List FontScore) :=
  ((fonts.foldl (recognizeFont analytic shape fonts.length) (initState symbols0)).progressLog,
    if (fonts.foldl (recognizeFont analytic shape fonts.length) (initState symbols0)).failed then
      .rejected
    else if (fonts.foldl (recognizeFont analytic shape fonts.length)
        (initState symbols0)).done = fonts.length then
      .resolved (sortBySimilarityDesc
        (fonts.foldl (recognizeFont analytic shape fonts.length) (initState symbols0)).result)
    else .pending)

lemma mem_insertScore (x : FontScore) : ∀ (l : List FontScore) (a : FontScore),
    a ∈ insertScore x l ↔ a = x ∨ a ∈ l := by
  intro l
  induction l with
  | nil => intro a; simp [insertScore]
  | cons y ys ih =>
      intro a
      rw [insertScore]
      by_cases h : y.similarity ≤ x.similarity
      · rw [if_pos h]
        simp [List.mem_cons]
      · rw [if_neg h]
        simp only [List.mem_cons, ih]
        tauto

lemma length_insertScore (x : FontScore) : ∀ l : List FontScore,
    (insertScore x l).length = l.length + 1 := by
  intro l
  induction l with
  | nil => rfl
  | cons y ys ih =>
      rw [insertScore]
      by_cases h : y.similarity ≤ x.similarity
      · rw [if_pos h]
        simp
      · rw [if_neg h]
        simp [ih]

lemma sorted_insertScore (x : FontScore) : ∀ l : List FontScore,
    List.Pairwise (fun a b => b.similarity ≤ a.similarity) l →
    List.Pairwise (fun a b => b.similarity ≤ a.similarity) (insertScore x l) := by
  intro l
  induction l with
  | nil => intro _; simp [insertScore]
  | cons y ys ih =>
      intro h
      rcases List.pairwise_cons.mp h with ⟨hy, hys⟩
      rw [insertScore]
      by_cases hle : y.similarity ≤ x.similarity
      · rw [if_pos hle]
        apply List.pairwise_cons.mpr
        refine ⟨?_, h⟩
        intro b hb
        rcases List.mem_cons.mp hb with rfl | hb'
        · exact hle
        · exact le_trans (hy b hb') hle
      · rw [if_neg hle]
        apply List.pairwise_cons.mpr
        refine ⟨?_, ih hys⟩
        intro b hb
        rcases (mem_insertScore x ys b).mp hb with rfl | hb'
        · exact le_of_lt (lt_of_not_le hle)
        · exact hy b hb'

lemma sortBySimilarityDesc_spec (l : List FontScore) :
    List.Pairwise (fun a b => b.similarity ≤ a.similarity) (sortBySimilarityDesc l)
    ∧ (sortBySimilarityDesc l).length = l.length := by
  induction l with
  | nil => simp [sortBySimilarityDesc]
  | cons x xs ih =>
      rw [sortBySimilarityDesc] at ih ⊢
      simp only [List.foldr_cons]
      exact ⟨sorted_insertScore x _ ih.1,
        by rw [length_insertScore, ih.2, List.length_cons]⟩

lemma recognizeFont_count (analytic shape : String → Option String → Option ℚ)
    (todo : ℕ) (st : RecState) (f : FontInput) :
    (recognizeFont analytic shape todo st f).result.length + st.done
      = (recognizeFont analytic shape todo st f).done + st.result.length := by
  cases halpha : f.alpha with
  | none => simp only [recognizeFont, halpha]; omega
  | some alpha =>
      cases hc : compareSets analytic shape (symbolsToDomain st.symbols alpha).1
          (symbolsToDomain st.symbols alpha).2 with
      | pending => simp only [recognizeFont, halpha, hc]; omega
      | rejected => simp only [recognizeFont, halpha, hc]; omega
      | resolved val =>
          simp only [recognizeFont, halpha, hc, List.length_append, List.length_cons,
            List.length_nil]
          omega

lemma fold_count (analytic shape : String → Option String → Option ℚ) (todo : ℕ) :
    ∀ (fonts : List FontInput) (st : RecState),
      (fonts.foldl (recognizeFont analytic shape todo) st).result.length + st.done
        = (fonts.foldl (recognizeFont analytic shape todo) st).done + st.result.length := by
  intro fonts
  induction fonts with
  | nil => intro st; simp; omega
  | cons f rest ih =>
      intro st
      simp only [List.foldl_cons]
      have h1 := ih (recognizeFont analytic shape todo st f)
      have h2 := recognizeFont_count analytic shape todo st f
      omega

lemma recognizeFont_failed_mono (analytic shape : String → Option String → Option ℚ)
    (todo : ℕ) :
    ∀ (fonts : List FontInput) (st : RecState), st.failed = true →
      (fonts.foldl (recognizeFont analytic shape todo) st).failed = true := by
  intro fonts
  induction fonts with
  | nil => intro st h; exact h
  | cons f rest ih =>
      intro st h
      simp only [List.foldl_cons]
      apply ih
      cases halpha : f.alpha with
      | none => simp only [recognizeFont, halpha]
      | some alpha =>
          cases hc : compareSets analytic shape (symbolsToDomain st.symbols alpha).1
              (symbolsToDomain st.symbols alpha).2 with
          | pending => simp only [recognizeFont, halpha, hc]; exact h
          | rejected => simp only [recognizeFont, halpha, hc]
          | resolved val => simp only [recognizeFont, halpha, hc]; exact h

/-- C7: whenever a corpus-matching pass completes without failure, the
delivered list has one entry per corpus font and is sorted by `similarity`
in descending order. -/
theorem corpusMatcher_ranked_output (analytic shape : String → Option String → Option ℚ)
    (symbols0 : JsObj String) (fonts : List FontInput)
    (plog : List ProgressCall) (res : List FontScore)
    (h : recognizeModel analytic shape symbols0 fonts = (plog, Outcome.resolved res)) :
    res.length = fonts.length
    ∧ List.Pairwise (fun a b => b.similarity ≤ a.similarity) res := by
  have h2 := congrArg Prod.snd h
  rw [recognizeModel] at h2
  simp only at h2
  by_cases hf : (fonts.foldl (recognizeFont analytic shape fonts.length)
      (initState symbols0)).failed = true
  · rw [if_pos hf] at h2
    exact absurd h2 (by simp)
  · rw [if_neg hf] at h2
    by_cases hd : (fonts.foldl (recognizeFont analytic shape fonts.length)
        (initState symbols0)).done = fonts.length
    · rw [if_pos hd] at h2
      have hres : sortBySimilarityDesc
          (fonts.foldl (recognizeFont analytic shape fonts.length)
            (initState symbols0)).result = res := by
        injection h2
      have hcount := fold_count analytic shape fonts.length fonts (initState symbols0)
      simp only [show (initState symbols0).done = 0 from rfl,
        show (initState symbols0).result = [] from rfl, List.length_nil] at hcount
      have hsort := sortBySimilarityDesc_spec
        (fonts.foldl (recognizeFont analytic shape fonts.length) (initState symbols0)).result
      constructor
      · rw [← hres, hsort.2]
        omega
      · rw [← hres]
        exact hsort.1
    · rw [if_neg hd] at h2
      exact absurd h2 (by simp)

/-- C5 (code bug): `finalize` in `_recognize` invokes
`progress(name, val, done / todo)` BEFORE `++done`, so the reported
fraction is the count of previously completed fonts over the corpus size:
a single-font corpus reports 0 on its only progress call instead of 1.0,
and no call ever reports 1.0.  The callback does fire exactly once per
successfully compared font. -/
theorem progress_fraction_stale :
    (recognizeModel (fun _ _ => some 100) (fun _ _ => some 100) [("a", "A")]
        [FontInput.mk "Font1" none (some [("a", "A")])]).1
      = [ProgressCall.mk "Font1" 0]
    ∧ [ProgressCall.mk "Font1" 0] ≠ [ProgressCall.mk "Font1" 1] := by
  constructor
  · have hred : symbolsToDomain [("a", "A")] [("a", "A")] = ([("a", "A")], [("a", "A")]) := by
      decide
    have hcomp : compareSets (fun _ _ => some 100) (fun _ _ => some 100)
        [("a", "A")] [("a", "A")] = Outcome.resolved [("a", SymbolScore.mk 100 100)] := by
      decide
    simp only [recognizeModel, List.foldl_cons, List.foldl_nil, recognizeFont, initState,
      hred, hcomp, List.length_cons, List.length_nil, List.nil_append]
    norm_num
  · simp

/-- C2 (code bug): `_recognize` hands the SHARED `symbolsBase64` object to
`_symbolsToDomain` for every font, so processing a font whose alphabet
lacks a recognized symbol deletes that symbol from the recognized set that
every not-yet-compared font will be reduced against: after Font1 (alphabet
`{a}`) is processed, the recognized set `{a, b}` has shrunk to `{a}`. -/
theorem shared_recognized_set_mutated :
    (recognizeFont (fun _ _ => some 100) (fun _ _ => some 100) 2
        (initState [("a", "A"), ("b", "B")])
        (FontInput.mk "Font1" none (some [("a", "X")]))).symbols
      = [("a", "A")]
    ∧ ([("a", "A")] : JsObj String) ≠ [("a", "A"), ("b", "B")] := by
  constructor
  · decide
  · decide

theorem corpusMatcher_ranked_output_witness :
    [FontScore.mk "Font1" 100, FontScore.mk "Font2" 0].length
        = [FontInput.mk "Font1" none (some [("a", "A")]),
           FontInput.mk "Font2" none (some [("a", "Z")])].length
    ∧ List.Pairwise (fun a b => b.similarity ≤ a.similarity)
        [FontScore.mk "Font1" 100, FontScore.mk "Font2" 0] := by
  have hred1 : symbolsToDomain [("a", "A")] [("a", "A")] = ([("a", "A")], [("a", "A")]) := by
    decide
  have hred2 : symbolsToDomain [("a", "A")] [("a", "Z")] = ([("a", "A")], [("a", "Z")]) := by
    decide
  have hcomp1 : compareSets (fun v w => if w == some v then some 100 else some 0)
      (fun v w => if w == some v then some 100 else some 0)
      [("a", "A")] [("a", "A")] = Outcome.resolved [("a", SymbolScore.mk 100 100)] := by
    decide
  have hcomp2 : compareSets (fun v w => if w == some v then some 100 else some 0)
      (fun v w => if w == some v then some 100 else some 0)
      [("a", "A")] [("a", "Z")] = Outcome.resolved [("a", SymbolScore.mk 0 0)] := by
    decide
  have havg1 : average [("a", SymbolScore.mk 100 100)] = 100 := by
    norm_num [average]
  have havg2 : average [("a", SymbolScore.mk 0 0)] = 0 := by
    norm_num [average]
  have hsort : sortBySimilarityDesc [FontScore.mk "Font1" 100, FontScore.mk "Font2" 0]
      = [FontScore.mk "Font1" 100, FontScore.mk "Font2" 0] := by
    norm_num [sortBySimilarityDesc, insertScore]
  have h : recognizeModel (fun v w => if w == some v then some 100 else some 0)
      (fun v w => if w == some v then some 100 else some 0) [("a", "A")]
      [FontInput.mk "Font1" none (some [("a", "A")]),
       FontInput.mk "Font2" none (some [("a", "Z")])]
      = ([ProgressCall.mk "Font1" 0, ProgressCall.mk "Font2" (1 / 2)],
         Outcome.resolved [FontScore.mk "Font1" 100, FontScore.mk "Font2" 0]) := by
    simp only [recognizeModel, List.foldl_cons, List.foldl_nil, recognizeFont, initState,
      hred1, hred2, hcomp1, hcomp2, havg1, havg2, List.length_cons, List.length_nil,
      List.nil_append, List.cons_append, List.append_nil]
    simp only [Option.getD_none, Bool.false_eq_true, if_false, if_true]
    rw [hsort]
    norm_num
  exact corpusMatcher_ranked_output
    (fun v w => if w == some v then some 100 else some 0)
    (fun v w => if w == some v then some 100 else some 0)
    [("a", "A")]
    [FontInput.mk "Font1" none (some [("a", "A")]),
     FontInput.mk "Font2" none (some [("a", "Z")])]
    [ProgressCall.mk "Font1" 0, ProgressCall.mk "Font2" (1 / 2)]
    [FontScore.mk "Font1" 100, FontScore.mk "Font2" 0] h

lemma collectScores_fail (analytic shape : String → Option String → Option ℚ)
    (second : JsObj String) :
    ∀ (first : List (String × String)) (p : String × String), p ∈ first →
      (analytic p.2 (jsGet second p.1) = none ∨ shape p.2 (jsGet second p.1) = none) →
      collectScores analytic shape second first = none := by
  intro first
  induction first with
  | nil => intro p hp; cases hp
  | cons q rest ih =>
      intro p hp hor
      rcases List.mem_cons.mp hp with rfl | hp'
      · rcases hor with h | h
        · simp [collectScores, h]
        · cases ha : analytic p.2 (jsGet second p.1) with
          | none => simp [collectScores, ha]
          | some a => simp [collectScores, ha, h]
      · cases ha : analytic q.2 (jsGet second q.1) with
        | none => simp [collectScores, ha]
        | some a =>
            cases hs : shape q.2 (jsGet second q.1) with
            | none => simp [collectScores, ha, hs]
            | some s => simp [collectScores, ha, hs, ih p hp' hor]

lemma fold_failed_of_fetch_fail (analytic shape : String → Option String → Option ℚ)
    (todo : ℕ) :
    ∀ (fonts : List FontInput) (st : RecState) (f : FontInput),
      f ∈ fonts → f.alpha = none →
      (fonts.foldl (recognizeFont analytic shape todo) st).failed = true := by
  intro fonts
  induction fonts with
  | nil => intro st f hf; cases hf
  | cons g rest ih =>
      intro st f hf halpha
      rcases List.mem_cons.mp hf with rfl | hf'
      · simp only [List.foldl_cons]
        exact recognizeFont_failed_mono analytic shape todo rest _
          (by simp only [recognizeFont, halpha])
      · simp only [List.foldl_cons]
        exact ih _ f hf' halpha

/-- C9: failure propagation is fail-fast at every level — a rejected
comparator promise for any symbol makes `_compare` reject the font's
aggregation (no per-symbol results are resolved), a failed font fetch
rejects the whole corpus match, and a rejected aggregation for any font
(at any position of the completion order) rejects the whole corpus match;
a rejected outcome carries no ranked list. -/
theorem fail_fast_propagation (analytic shape : String → Option String → Option ℚ) :
    (∀ (first second : JsObj String) (p : String × String), p ∈ first →
        (analytic p.2 (jsGet second p.1) = none ∨ shape p.2 (jsGet second p.1) = none) →
        compareSets analytic shape first second = Outcome.rejected)
    ∧ (∀ (symbols0 : JsObj String) (fonts : List FontInput) (f : FontInput),
        f ∈ fonts → f.alpha = none →
        (recognizeModel analytic shape symbols0 fonts).2 = Outcome.rejected)
    ∧ (∀ (symbols0 : JsObj String) (pre suf : List FontInput) (f : FontInput)
        (alpha : JsObj String), f.alpha = some alpha →
        compareSets analytic shape
          (symbolsToDomain (pre.foldl (recognizeFont analytic shape
            (pre ++ f :: suf).length) (initState symbols0)).symbols alpha).1
          (symbolsToDomain (pre.foldl (recognizeFont analytic shape
            (pre ++ f :: suf).length) (initState symbols0)).symbols alpha).2
          = Outcome.rejected →
        (recognizeModel analytic shape symbols0 (pre ++ f :: suf)).2 = Outcome.rejected) := by
  refine ⟨?_, ?_, ?_⟩
  · intro first second p hp hor
    rw [compareSets, collectScores_fail analytic shape second first p hp hor]
  · intro symbols0 fonts f hf halpha
    have hfold := fold_failed_of_fetch_fail analytic shape fonts.length fonts
      (initState symbols0) f hf halpha
    simp only [recognizeModel, hfold, if_true]
  · intro symbols0 pre suf f alpha halpha hcomp
    have hfold : ((pre ++ f :: suf).foldl (recognizeFont analytic shape
        (pre ++ f :: suf).length) (initState symbols0)).failed = true := by
      rw [List.foldl_append]
      simp only [List.foldl_cons]
      exact recognizeFont_failed_mono analytic shape (pre ++ f :: suf).length suf _
        (by simp only [recognizeFont, halpha, hcomp])
    simp only [recognizeModel, hfold, if_true]

theorem fail_fast_propagation_witness :
    compareSets (fun _ _ => none) (fun _ _ => some 100) [("a", "A")] [("a", "Z")]
        = Outcome.rejected
    ∧ (recognizeModel (fun _ _ => none) (fun _ _ => some 100) [("a", "A")]
        [FontInput.mk "FontX" none none]).2 = Outcome.rejected
    ∧ (recognizeModel (fun _ _ => none) (fun _ _ => some 100) [("a", "A")]
        ([] ++ FontInput.mk "FontY" none (some [("a", "Z")]) :: [])).2
        = Outcome.rejected := by
  refine ⟨?_, ?_, ?_⟩
  · exact (fail_fast_propagation (fun _ _ => none) (fun _ _ => some 100)).1
      [("a", "A")] [("a", "Z")] ("a", "A") (by decide) (Or.inl rfl)
  · exact (fail_fast_propagation (fun _ _ => none) (fun _ _ => some 100)).2.1
      [("a", "A")] [FontInput.mk "FontX" none none] (FontInput.mk "FontX" none none)
      (by simp) rfl
  · exact (fail_fast_propagation (fun _ _ => none) (fun _ _ => some 100)).2.2
      [("a", "A")] [] [] (FontInput.mk "FontY" none (some [("a", "Z")])) [("a", "Z")]
      rfl (by decide)

/-- The fields of the deserialized JSON documents that the font storage
inspects: the list-valued `index` of a fonts-index file and the `alpha`
glyph mapping of a font data file (`none` models an absent field, and for
`index` also a non-array value, since only `Array.isArray` is tested). -/
structure FontDocument where
  index : Option (List String)
  alpha : Option (JsObj String)
deriving DecidableEq

/-- The result object `_fetch` resolves with (`exists` is a Lean keyword,
hence `exists'` for the source's `exists` field). -/
structure FetchResult where
  exists' : Bool
  content : Option FontDocument
deriving DecidableEq

/-- The distinguishable rejection reasons of the font-storage promises. -/
inductive JsError where
  | typeError
  | openError
  | parseError
  | schemaError
deriving DecidableEq

/-- Settlement of a font-storage promise, carrying the rejection reason. -/
inductive FetchOutcome (α : Type) where
  | resolved (val : α)
  | rejected (err : JsError)
deriving DecidableEq

/-- `_fetch` (fontstorage.js): `onerror`/`onabort` reject with the
"Unable to open" message (`openError`); on load,
`exists = status != 404`, and only when `exists` holds is the response
text parsed — a `JSON.parse` failure rejects first (`parseError`; the
subsequent `resolve` on the already-settled promise is a no-op).  On a
404 the promise RESOLVES with `exists = false` and no `content`.  The
model input is `none` for a network error, otherwise the status paired
with the parse result of the body. -/
def fetch (xhr : Option (ℕ × Option FontDocument)) : FetchOutcome FetchResult :=
  match xhr with
  | none => .rejected .openError
  | some (status, parsed) =>
      if status ≠ 404 then
        match parsed with
        | some c => .resolved { exists' := true, content := some c }
        | none => .rejected .parseError
      else .resolved { exists' := false, content := none }

/-- `_prepareFontsIndex` (fontstorage.js): evaluate
`Array.isArray(res.content.index)`; reading `.index` when `content` is
`undefined` throws a TypeError that rejects the promise; a present content
without an array `index` rejects with the structured schema message. -/
def prepareFontsIndex (xhr : Option (ℕ × Option FontDocument)) :
    FetchOutcome FontDocument :=
  match fetch xhr with
  | .rejected e => .rejected e
  | .resolved res =>
      match res.content with
      | none => .rejected .typeError
      | some content =>
          match content.index with
          | some _ => .resolved content
          | none => .rejected .schemaError

/-- `_prepareFont` (fontstorage.js): read `res.content.alpha` (a TypeError
when `content` is `undefined`); when `alpha` is present, prefix every
entry with the PNG data-URL header in place and resolve the content,
otherwise reject with the structured schema message. -/
def prepareFont (xhr : Option (ℕ × Option FontDocument)) :
    FetchOutcome FontDocument :=
  match fetch xhr with
  | .rejected e => .rejected e
  | .resolved res =>
      match res.content with
      | none => .rejected .typeError
      | some content =>
          match content.alpha with
          | some al => .resolved { content with
              alpha := some (al.map (fun p => (p.1, "data:image/png;base64," ++ p.2))) }
          | none => .rejected .schemaError

/-- C10: an HTTP 404 makes `_fetch` resolve (not reject) with
`exists = false` and no `content`; `_prepareFontsIndex` and `_prepareFont`
then dereference the missing content, so a missing index or font file
surfaces as a thrown property-access TypeError rather than the structured
"does not meet the established format" schema rejection produced for
present-but-malformed documents. -/
theorem fontStorage_missing_resource (parsed : Option FontDocument) :
    fetch (some (404, parsed))
        = FetchOutcome.resolved { exists' := false, content := none }
    ∧ prepareFontsIndex (some (404, parsed)) = FetchOutcome.rejected JsError.typeError
    ∧ prepareFont (some (404, parsed)) = FetchOutcome.rejected JsError.typeError
    ∧ JsError.typeError ≠ JsError.schemaError :=
  ⟨rfl, rfl, rfl, by decide⟩
